import Mathlib

/-!
Verification development for the CurvedPipe element
(SRC/element/pipe/CurvedPipe.cpp).

The element computes basic-system stiffness and equivalent loads of a
circular-arc pipe by Gauss integration of a flexibility kernel.  All
floating-point doubles of the source are embedded as real numbers; the
OpenSees `Matrix`/`Vector` types become `Matrix (Fin 6) (Fin 6) ℝ` and
`Fin 6 → ℝ`.  External collaborators (the coordinate transformation, the
wrapped section and material) are embedded as explicit state fields and
function parameters, following the interface described in the design
document.
-/

noncomputable section

open Real
open scoped Matrix

/-- State of a `CurvedPipe` element at the time of a stiffness/force query.
Section fields (`A`, `Iz`, `Iy`, `Jx`, `alphaV`, `dout`, `thk`) mirror the
wrapped `PipeSection` accessors, material fields (`E`, `G`, `alp`, `nu`)
mirror the wrapped `PipeMaterial`, `wx`/`wy`/`wz`/`pressure` are the load
state, and `radius`/`theta0` are the arc geometry computed by `getTheta0`.
`L` models `theCoordTransf->getInitialLength()` (collaborator, not in this
repository).  `dT` models the result of `Pipe::aveTemp()`: modelled from the
spec as the scalar averaged temperature differential (the `Pipe` base class
is not in this repository).  `sectionOK`/`materialOK` model success of
`updateSectionData()`/`updateMaterialData()`: modelled from the spec, which
says the property refresh fails if the collaborator is unavailable. -/
structure CPState where
  E : ℝ
  A : ℝ
  Iz : ℝ
  Iy : ℝ
  G : ℝ
  Jx : ℝ
  alphaV : ℝ
  dout : ℝ
  thk : ℝ
  alp : ℝ
  nu : ℝ
  wx : ℝ
  wy : ℝ
  wz : ℝ
  pressure : ℝ
  dT : ℝ
  radius : ℝ
  theta0 : ℝ
  L : ℝ
  sectionOK : Bool
  materialOK : Bool

/-- The 20-point Gauss table `CurvedPipe::gaussPts` (source lines 32-46).
The flat C++ vector stores weight/abscissa pairs at indices `2i`/`2i+1`;
here each pair is one list entry `(wi, xi)`. -/
def gaussPts : List (ℝ × ℝ) :=
  [(0.1527533871307258, -0.0765265211334973),
   (0.1527533871307258, 0.0765265211334973),
   (0.1491729864726037, -0.2277858511416451),
   (0.1491729864726037, 0.2277858511416451),
   (0.1420961093183820, -0.3737060887154195),
   (0.1420961093183820, 0.3737060887154195),
   (0.1316886384491766, -0.5108670019508271),
   (0.1316886384491766, 0.5108670019508271),
   (0.1181945319615184, -0.6360536807265150),
   (0.1181945319615184, 0.6360536807265150),
   (0.1019301198172404, -0.7463319064601508),
   (0.1019301198172404, 0.7463319064601508),
   (0.0832767415767048, -0.8391169718222188),
   (0.0832767415767048, 0.8391169718222188),
   (0.0626720483341091, -0.9122344282513259),
   (0.0626720483341091, 0.9122344282513259),
   (0.0406014298003869, -0.9639719272779138),
   (0.0406014298003869, 0.9639719272779138),
   (0.0176140071391521, -0.9931285991850949),
   (0.0176140071391521, 0.9931285991850949)]

/-- Kinematic operator `CurvedPipe::bx` (source lines 370-397): the 6x6
map from basic stress resultants to internal forces at angular position
`θ`.  Entries not assigned by the source are zero (the source zeroes the
matrix first). -/
def bx (p : CPState) (θ : ℝ) : Matrix (Fin 6) (Fin 6) ℝ :=
  let c := Real.cos θ
  let sn := Real.sin θ
  let L := p.L
  let R := p.radius
  let H := R * (c - Real.cos p.theta0)
  let H0 := R * Real.cos p.theta0
  let invL := 1.0 / L
  !![c, -sn * invL, -sn * invL, 0, 0, 0;
     -H, R * sn * invL - 0.5, R * sn * invL + 0.5, 0, 0, 0;
     0, 0, 0, sn * H0 * invL - 0.5 * c, sn * H0 * invL + 0.5 * c, -sn;
     0, 0, 0, R * invL * (1 - Real.cos (θ - p.theta0)),
        R * invL * (1 - Real.cos (θ + p.theta0)), c;
     sn, c * invL, c * invL, 0, 0, 0;
     0, 0, 0, invL, invL, 0]

/-- Distributed-load particular solution `CurvedPipe::Spx`
(source lines 399-429). -/
def Spx (p : CPState) (θ : ℝ) : Fin 6 → ℝ :=
  let c := Real.cos θ
  let sn := Real.sin θ
  let L := p.L
  let R := p.radius
  let R2 := R * R
  let H0 := R * Real.cos p.theta0
  let invL := 1.0 / L
  let stt0 := Real.sin (θ - p.theta0)
  let ctt0 := Real.cos (θ - p.theta0)
  ![p.wx * R * (c * p.theta0 - sn - c * θ + 2 * sn * p.theta0 * H0 * invL) -
      p.wy * R * sn * θ,
    p.wx * R * (c * R * θ - 2 * sn * R * p.theta0 * H0 * invL -
        c * R * p.theta0 + p.theta0 * H0) +
      p.wy * R * (sn * R * θ - p.theta0 * L * 0.5 + c * R - H0),
    p.wz * R2 * (-p.theta0 * stt0 + ctt0 - 1),
    p.wz * R2 * (-θ + p.theta0 * ctt0 + stt0),
    p.wx * R * (c + sn * p.theta0 - sn * θ - 2 * c * p.theta0 * H0 * invL) +
      p.wy * R * c * θ,
    -p.wz * R * θ]

/-- Diagonal of the section flexibility built by `CurvedPipe::fs`
(source lines 431-450): inverse axial, bending, torsion stiffnesses,
then the two shear terms with the `alphaV > 99` sentinel (set to zero)
and the `alphaV > 0` guard. -/
def fsDiag (p : CPState) : Fin 6 → ℝ :=
  let alphaV := if p.alphaV > 99 then 0 else p.alphaV
  ![1.0 / (p.E * p.A), 1.0 / (p.E * p.Iz), 1.0 / (p.E * p.Iy),
    1.0 / (p.G * p.Jx),
    if alphaV > 0 then 1.0 / (p.G * (p.A / alphaV)) else 0,
    if alphaV > 0 then 1.0 / (p.G * (p.A / alphaV)) else 0]

/-- Section flexibility `CurvedPipe::fs` (source lines 431-450): a zeroed
6x6 matrix whose diagonal is set to `fsDiag`.  The angular position is
unused, as in the source. -/
def fs (p : CPState) (_θ : ℝ) : Matrix (Fin 6) (Fin 6) ℝ :=
  Matrix.diagonal (fsDiag p)

/-- Flexibility kernel `CurvedPipe::fb` (source lines 452-460):
`addMatrixTripleProduct(0, bx, fs, 1)` computes `bxᵀ * fs * bx`. -/
def fb (p : CPState) (θ : ℝ) : Matrix (Fin 6) (Fin 6) ℝ :=
  (bx p θ)ᵀ * fs p θ * bx p θ

/-- Locked-deformation kernel `CurvedPipe::ubno` (source lines 462-475):
`temp = fs * Spx`, then `bxᵀ * temp`. -/
def ubno (p : CPState) (θ : ℝ) : Fin 6 → ℝ :=
  (bx p θ)ᵀ *ᵥ (fs p θ *ᵥ Spx p θ)

/-- Gauss quadrature `CurvedPipe::integrateGauss` (source lines 537-557):
affine map `xi = gᵢ.2 * p + q`, `wi = gᵢ.1 * p`, accumulation of `fb` and
`ubno` into a zero-initialized matrix/vector pair over the 20 tabulated
points, and a final scaling of both results by `radius`. -/
def integrateGauss (p : CPState) (a b : ℝ) :
    Matrix (Fin 6) (Fin 6) ℝ × (Fin 6 → ℝ) :=
  let pp := (b - a) / 2.0
  let qq := (b + a) / 2.0
  let r := gaussPts.foldl
    (fun acc g =>
      (acc.1 + (g.1 * pp) • fb p (g.2 * pp + qq),
       acc.2 + (g.1 * pp) • ubno p (g.2 * pp + qq)))
    (0, 0)
  (p.radius • r.1, p.radius • r.2)

/-- The integrated flexibility matrix computed at the start of
`CurvedPipe::kb` (source line 482): `integrateGauss(-theta0, theta0)`,
matrix part. -/
def fbIntegrated (p : CPState) : Matrix (Fin 6) (Fin 6) ℝ :=
  (integrateGauss p (-p.theta0) p.theta0).1

/-- The integrated locked-deformation vector computed at the start of
`CurvedPipe::kb` (source line 482): `integrateGauss(-theta0, theta0)`,
vector part. -/
def ubnoIntegrated (p : CPState) : Fin 6 → ℝ :=
  (integrateGauss p (-p.theta0) p.theta0).2

/-- Thermal augmentation of `CurvedPipe::kb` (source lines 497-502):
`2 * R * alp * dT * sin(theta0)` added to component 0 only. -/
def thermalCorr (p : CPState) : Fin 6 → ℝ :=
  ![2 * p.radius * p.alp * p.dT * Real.sin p.theta0, 0, 0, 0, 0, 0]

/-- The `BTA` factor of the pressure correction in `CurvedPipe::kb`
(source lines 509-515), converted from SAP 5. -/
def pressureBTA (p : CPState) : ℝ :=
  let RM := (p.dout - p.thk) * 0.5
  let DU2 := p.radius / RM
  let DUM := p.pressure * RM * 0.5 / (p.E * p.thk)
  let DU3 := 1.0 + DUM * (1 - p.nu * (2 * DU2 - 1) / (DU2 - 1))
  let BTA := DU3 / (1.0 + DUM * (2 - p.nu))
  let BTA2 := -(1.0 - BTA) / p.radius
  BTA2

/-- Pressure augmentation of `CurvedPipe::kb` (source lines 505-523):
the two additions to component 0 and the additions to components 1 and 2;
components 3, 4, 5 are untouched. -/
def pressureCorr (p : CPState) : Fin 6 → ℝ :=
  let R := p.radius
  let BTA := pressureBTA p
  ![0.5 * p.pressure * R * (p.dout - p.thk) * (1 - 2 * p.nu) *
      Real.sin p.theta0 / (p.E * p.thk) +
      2 * R * R * BTA * (p.theta0 * Real.cos p.theta0 - Real.sin p.theta0),
    -R * BTA * p.theta0,
    R * BTA * p.theta0, 0, 0, 0]

/-- The fully augmented locked deformation vector of `CurvedPipe::kb`
(source lines 482-523): the Gauss-integrated `ubno`, plus the thermal term
when `dT > 0`, plus the pressure corrections when `pressure ≠ 0`. -/
def lockedDef (p : CPState) : Fin 6 → ℝ :=
  ubnoIntegrated p +
    (if p.dT > 0 then thermalCorr p else 0) +
    (if p.pressure ≠ 0 then pressureCorr p else 0)

/-- Load/effect assembler `CurvedPipe::kb` (source lines 477-535).
Returns `none` when a property refresh fails (`updateSectionData` /
`updateMaterialData`, source lines 486-495) or when `Matrix::Invert` fails
on the integrated flexibility matrix, i.e. when it is singular (source
line 526); otherwise returns the basic stiffness (the inverse) and the
basic equivalent load `-kb * lockedDef` (source line 532). -/
def kb (p : CPState) : Option (Matrix (Fin 6) (Fin 6) ℝ × (Fin 6 → ℝ)) :=
  if p.sectionOK && p.materialOK then
    if (fbIntegrated p).det = 0 then none
    else some ((fbIntegrated p)⁻¹, -((fbIntegrated p)⁻¹ *ᵥ lockedDef p))
  else none

/-- Closed-form distributed self-weight end actions `CurvedPipe::plw`
(source lines 559-589). -/
def plw (p : CPState) : Fin 6 → ℝ :=
  let R := p.radius
  let H0 := R * Real.cos p.theta0
  let L := p.L
  ![-2 * p.wx * R * p.theta0,
    p.wx * R * (1.0 - 2 * p.theta0 * H0 / L) - p.wy * R * p.theta0,
    -p.wx * R * (1.0 - 2 * p.theta0 * H0 / L) - p.wy * R * p.theta0,
    -p.wz * R * p.theta0,
    -p.wz * R * p.theta0,
    p.wz * R * (L - 2 * p.theta0 * H0)]

/-- Facade accessor `CurvedPipe::getTangentStiff` (source lines 253-272).
`v` models `theCoordTransf->getBasicTrialDisp()` and `gT` models
`theCoordTransf->getGlobalStiffMatrix` (collaborators, not in this
repository).  On `kb` failure the element zeroes and returns the class
stiffness matrix `K` (the process is not terminated); on success it forms
`q = kbm * v + pb0` and transforms to global coordinates. -/
def getTangentStiff (p : CPState) (v : Fin 6 → ℝ)
    (gT : Matrix (Fin 6) (Fin 6) ℝ → (Fin 6 → ℝ) → Matrix (Fin 12) (Fin 12) ℝ) :
    Matrix (Fin 12) (Fin 12) ℝ :=
  match kb p with
  | none => 0
  | some (kbm, pb0) => gT kbm (kbm *ᵥ v + pb0)

/-- Facade accessor `CurvedPipe::getInitialStiff` (source lines 274-286).
`gI` models `theCoordTransf->getInitialGlobalStiffMatrix`.  On `kb`
failure the zeroed class matrix `K` is returned. -/
def getInitialStiff (p : CPState)
    (gI : Matrix (Fin 6) (Fin 6) ℝ → Matrix (Fin 12) (Fin 12) ℝ) :
    Matrix (Fin 12) (Fin 12) ℝ :=
  match kb p with
  | none => 0
  | some (kbm, _) => gI kbm

/-- Facade accessor `CurvedPipe::getResistingForce` (source lines 306-335).
`v` models the basic trial displacement, `gR` models
`theCoordTransf->getGlobalResistingForce`, `Q` and `rho` model the
`ElasticBeam3d` members of the same names (base class, not in this
repository).  On `kb` failure the zeroed class vector `P` is returned;
on success `P = gR (kbm * v + pb0) (plw)`, and `Q` is subtracted only
inside the `if (rho != 0)` guard of source lines 329-332. -/
def getResistingForce (p : CPState) (v : Fin 6 → ℝ)
    (gR : (Fin 6 → ℝ) → (Fin 6 → ℝ) → (Fin 12 → ℝ))
    (Q : Fin 12 → ℝ) (rho : ℝ) : Fin 12 → ℝ :=
  match kb p with
  | none => 0
  | some (kbm, pb0) =>
    let P := gR (kbm *ᵥ v + pb0) (plw p)
    if rho ≠ 0 then P - Q else P

/-- Modelled from the spec: the Euclidean norm of a 3-component OpenSees
`Vector` (`Vector::Norm`, framework code not in this repository), used by
`CurvedPipe::getTheta0` for the center-to-node distances. -/
def norm3 (v : Fin 3 → ℝ) : ℝ :=
  Real.sqrt (v 0 ^ 2 + v 1 ^ 2 + v 2 ^ 2)

/-- Geometry solver `CurvedPipe::getTheta0` (source lines 337-368).
`crdsI`/`crdsJ` are the node coordinates, `thk` is `theSect->WALL()` and
`L` models `theCoordTransf->getInitialLength()`.  Returns `none` on the
three guarded error paths (no `theta0` is produced there); on success
returns the stored pair `(radius, theta0 = asin(Lhalf / radius))`. -/
def getTheta0 (crdsI crdsJ center : Fin 3 → ℝ) (thk tolWall L : ℝ) :
    Option (ℝ × ℝ) :=
  let R1 := norm3 (center - crdsI)
  let R2 := norm3 (center - crdsJ)
  let radius := (R1 + R2) / 2.0
  if radius ≤ 0 then none
  else if |R1 - R2| > tolWall * thk then none
  else
    let Lhalf := L / 2.0
    if Lhalf > 0.99985 * radius then none
    else some (radius, Real.arcsin (Lhalf / radius))

/-! ### Quadrature accumulation lemmas -/

/-- The accumulation loop of `integrateGauss`, run from an arbitrary
starting pair, adds the weighted list sums to the start values. -/
lemma foldl_pair (p : CPState) (pp qq : ℝ) :
    ∀ (l : List (ℝ × ℝ)) (A : Matrix (Fin 6) (Fin 6) ℝ) (V : Fin 6 → ℝ),
      l.foldl (fun acc g =>
        (acc.1 + (g.1 * pp) • fb p (g.2 * pp + qq),
         acc.2 + (g.1 * pp) • ubno p (g.2 * pp + qq))) (A, V) =
      (A + (l.map fun g => (g.1 * pp) • fb p (g.2 * pp + qq)).sum,
       V + (l.map fun g => (g.1 * pp) • ubno p (g.2 * pp + qq)).sum) := by
  intro l
  induction l with
  | nil => intro A V; simp
  | cons g l ih =>
    intro A V
    rw [List.foldl_cons]
    rw [ih]
    simp [add_assoc]

/-- The matrix result of `integrateGauss` as a radius-scaled weighted sum
over the Gauss table. -/
lemma integrateGauss_fst (p : CPState) (a b : ℝ) :
    (integrateGauss p a b).1 =
      p.radius • (gaussPts.map fun g =>
        (g.1 * ((b - a) / 2)) • fb p (g.2 * ((b - a) / 2) + (b + a) / 2)).sum := by
  simp only [integrateGauss, show (2.0:ℝ) = 2 from by norm_num]
  rw [foldl_pair p ((b - a) / 2) ((b + a) / 2) gaussPts 0 0]
  simp

/-- The vector result of `integrateGauss` as a radius-scaled weighted sum
over the Gauss table. -/
lemma integrateGauss_snd (p : CPState) (a b : ℝ) :
    (integrateGauss p a b).2 =
      p.radius • (gaussPts.map fun g =>
        (g.1 * ((b - a) / 2)) • ubno p (g.2 * ((b - a) / 2) + (b + a) / 2)).sum := by
  simp only [integrateGauss, show (2.0:ℝ) = 2 from by norm_num]
  rw [foldl_pair p ((b - a) / 2) ((b + a) / 2) gaussPts 0 0]
  simp

/-- C2: for any bounds `(a, b)`, `integrateGauss` evaluates
`fb = bxᵀ·fs·bx` and `ubno = bxᵀ·fs·Spx` at exactly the 20 tabulated
quadrature points mapped by `xi = abscissa * p + q` with `p = (b-a)/2`,
`q = (b+a)/2`, accumulates them scaled by `weight * p` starting from zero,
and scales both accumulated results by the radius.  The result is a pure
function of its arguments: there is no iteration or convergence test. -/
theorem C2_integrateGauss_quadrature (p : CPState) (a b : ℝ) :
    gaussPts.length = 20 ∧
    (integrateGauss p a b).1 =
      p.radius • (gaussPts.map fun g =>
        (g.1 * ((b - a) / 2)) • fb p (g.2 * ((b - a) / 2) + (b + a) / 2)).sum ∧
    (integrateGauss p a b).2 =
      p.radius • (gaussPts.map fun g =>
        (g.1 * ((b - a) / 2)) • ubno p (g.2 * ((b - a) / 2) + (b + a) / 2)).sum := by
  refine ⟨by rfl, integrateGauss_fst p a b, integrateGauss_snd p a b⟩

/-! ### Section flexibility: structure of `fs` -/

/-- A concrete element state used by witnesses: unit section and material
properties, unit geometry, no loads, collaborators available. -/
def sW : CPState :=
  { E := 1, A := 1, Iz := 1, Iy := 1, G := 1, Jx := 1, alphaV := 1,
    dout := 3, thk := 1, alp := 1, nu := 0, wx := 0, wy := 0, wz := 0,
    pressure := 0, dT := 0, radius := 1, theta0 := 1, L := 1,
    sectionOK := true, materialOK := true }

/-- C5: `fs` is diagonal; the first four diagonal entries are the inverse
axial, bending and torsional stiffnesses; the two shear entries equal
`alphaV / (G*A)` when `0 < alphaV ≤ 99` and vanish when `alphaV` exceeds
the sentinel 99 or is non-positive; and the result does not depend on the
angular position. -/
theorem C5_fs_spec (p : CPState) (θ θ2 : ℝ) :
    (∀ i j, i ≠ j → fs p θ i j = 0) ∧
    fs p θ 0 0 = 1 / (p.E * p.A) ∧
    fs p θ 1 1 = 1 / (p.E * p.Iz) ∧
    fs p θ 2 2 = 1 / (p.E * p.Iy) ∧
    fs p θ 3 3 = 1 / (p.G * p.Jx) ∧
    (0 < p.alphaV → p.alphaV ≤ 99 →
      fs p θ 4 4 = p.alphaV / (p.G * p.A) ∧
      fs p θ 5 5 = p.alphaV / (p.G * p.A)) ∧
    ((p.alphaV ≤ 0 ∨ 99 < p.alphaV) →
      fs p θ 4 4 = 0 ∧ fs p θ 5 5 = 0) ∧
    fs p θ = fs p θ2 := by
  have shear : ∀ i : Fin 6, fsDiag p i =
      (if (if p.alphaV > 99 then (0:ℝ) else p.alphaV) > 0 then
        1.0 / (p.G * (p.A / (if p.alphaV > 99 then (0:ℝ) else p.alphaV))) else 0) →
      ((0 < p.alphaV → p.alphaV ≤ 99 → fsDiag p i = p.alphaV / (p.G * p.A)) ∧
       ((p.alphaV ≤ 0 ∨ 99 < p.alphaV) → fsDiag p i = 0)) := by
    intro i hi
    constructor
    · intro h0 h99
      rw [hi, if_neg (not_lt.2 h99), if_pos h0,
        show p.G * (p.A / p.alphaV) = p.G * p.A / p.alphaV from
          (mul_div_assoc _ _ _).symm,
        show (1.0:ℝ) = 1 from by norm_num, one_div_div]
    · rintro (h | h)
      · have h99 : ¬ (p.alphaV > 99) := not_lt.2 (h.trans (by norm_num))
        rw [hi, if_neg h99, if_neg (not_lt.2 h)]
      · rw [hi, if_pos h]
        norm_num
  have h4 := shear 4 rfl
  have h5 := shear 5 rfl
  refine ⟨fun i j hij => Matrix.diagonal_apply_ne _ hij, ?_, ?_, ?_, ?_, ?_, ?_, rfl⟩
  · rw [show fs p θ 0 0 = fsDiag p 0 from Matrix.diagonal_apply_eq _ 0]
    show (1.0:ℝ) / (p.E * p.A) = 1 / (p.E * p.A)
    norm_num
  · rw [show fs p θ 1 1 = fsDiag p 1 from Matrix.diagonal_apply_eq _ 1]
    show (1.0:ℝ) / (p.E * p.Iz) = 1 / (p.E * p.Iz)
    norm_num
  · rw [show fs p θ 2 2 = fsDiag p 2 from Matrix.diagonal_apply_eq _ 2]
    show (1.0:ℝ) / (p.E * p.Iy) = 1 / (p.E * p.Iy)
    norm_num
  · rw [show fs p θ 3 3 = fsDiag p 3 from Matrix.diagonal_apply_eq _ 3]
    show (1.0:ℝ) / (p.G * p.Jx) = 1 / (p.G * p.Jx)
    norm_num
  · intro h0 h99
    rw [show fs p θ 4 4 = fsDiag p 4 from Matrix.diagonal_apply_eq _ 4,
      show fs p θ 5 5 = fsDiag p 5 from Matrix.diagonal_apply_eq _ 5]
    exact ⟨h4.1 h0 h99, h5.1 h0 h99⟩
  · intro h
    rw [show fs p θ 4 4 = fsDiag p 4 from Matrix.diagonal_apply_eq _ 4,
      show fs p θ 5 5 = fsDiag p 5 from Matrix.diagonal_apply_eq _ 5]
    exact ⟨h4.2 h, h5.2 h⟩

/-- Witness for C5 at the concrete state `sW` (`alphaV = 1`). -/
theorem C5_fs_witness :
    0 < sW.alphaV ∧ sW.alphaV ≤ 99 ∧ fs sW 0 4 4 = sW.alphaV / (sW.G * sW.A) :=
  ⟨by norm_num [sW], by norm_num [sW],
    ((C5_fs_spec sW 0 0).2.2.2.2.2.1 (by norm_num [sW]) (by norm_num [sW])).1⟩

/-! ### Symmetry of the flexibility kernel and its integral -/

/-- `fb` is symmetric: `bxᵀ * fs * bx` with diagonal `fs`. -/
lemma fb_transpose (p : CPState) (θ : ℝ) : (fb p θ)ᵀ = fb p θ := by
  unfold fb fs
  rw [Matrix.transpose_mul, Matrix.transpose_mul, Matrix.transpose_transpose,
    Matrix.diagonal_transpose, Matrix.mul_assoc]

/-- Transpose distributes over a list sum of matrices. -/
lemma transpose_list_sum :
    ∀ l : List (Matrix (Fin 6) (Fin 6) ℝ),
      (l.sum)ᵀ = (l.map Matrix.transpose).sum := by
  intro l
  induction l with
  | nil => simp
  | cons A l ih => simp [Matrix.transpose_add, ih]

/-- C6: the flexibility kernel `fb = bxᵀ·fs·bx` is symmetric at every
angular position, and therefore the Gauss-integrated flexibility matrix
(for any bounds, in particular the one inverted by `kb`) is symmetric. -/
theorem C6_flexibility_symmetric (p : CPState) (θ a b : ℝ) :
    (fb p θ)ᵀ = fb p θ ∧
    ((integrateGauss p a b).1)ᵀ = (integrateGauss p a b).1 ∧
    (fbIntegrated p)ᵀ = fbIntegrated p := by
  have key : ∀ a2 b2 : ℝ, ((integrateGauss p a2 b2).1)ᵀ = (integrateGauss p a2 b2).1 := by
    intro a2 b2
    rw [integrateGauss_fst, Matrix.transpose_smul, transpose_list_sum, List.map_map]
    congr 1
    apply congrArg List.sum
    apply List.map_congr_left
    intro g _
    show ((g.1 * ((b2 - a2) / 2)) • fb p (g.2 * ((b2 - a2) / 2) + (b2 + a2) / 2))ᵀ = _
    rw [Matrix.transpose_smul, fb_transpose]
  exact ⟨fb_transpose p θ, key a b, key (-p.theta0) p.theta0⟩

/-! ### Zero-load behaviour -/

/-- With zero distributed loads the particular solution `Spx` vanishes. -/
lemma Spx_zero (p : CPState) (h1 : p.wx = 0) (h2 : p.wy = 0) (h3 : p.wz = 0)
    (θ : ℝ) : Spx p θ = 0 := by
  funext i
  fin_cases i <;> (simp [Spx, h1, h2, h3]; try rfl)

/-- With zero distributed loads the locked-deformation kernel vanishes. -/
lemma ubno_zero (p : CPState) (h1 : p.wx = 0) (h2 : p.wy = 0) (h3 : p.wz = 0)
    (θ : ℝ) : ubno p θ = 0 := by
  rw [ubno, Spx_zero p h1 h2 h3, Matrix.mulVec_zero, Matrix.mulVec_zero]

/-- With zero distributed loads the Gauss-integrated `ubno` vanishes. -/
lemma ubnoIntegrated_zero (p : CPState) (h1 : p.wx = 0) (h2 : p.wy = 0)
    (h3 : p.wz = 0) : ubnoIntegrated p = 0 := by
  unfold ubnoIntegrated
  rw [integrateGauss_snd]
  rw [List.sum_eq_zero, smul_zero]
  intro x hx
  simp only [List.mem_map] at hx
  obtain ⟨g, _, rfl⟩ := hx
  rw [ubno_zero p h1 h2 h3, smul_zero]

/-- With zero loads, zero pressure and zero temperature differential the
augmented locked deformation vanishes. -/
lemma lockedDef_zero (p : CPState) (h1 : p.wx = 0) (h2 : p.wy = 0)
    (h3 : p.wz = 0) (h4 : p.pressure = 0) (h5 : p.dT = 0) :
    lockedDef p = 0 := by
  unfold lockedDef
  rw [ubnoIntegrated_zero p h1 h2 h3]
  simp [h4, h5]

/-- C7: with zero distributed load, zero pressure and zero temperature
differential, the locked deformation vector assembled by `kb` is the zero
vector, and every successful `kb` call returns a zero basic equivalent
load vector. -/
theorem C7_zero_load_idempotence (p : CPState) (h1 : p.wx = 0) (h2 : p.wy = 0)
    (h3 : p.wz = 0) (h4 : p.pressure = 0) (h5 : p.dT = 0) :
    lockedDef p = 0 ∧ ∀ m v, kb p = some (m, v) → v = 0 := by
  have hld := lockedDef_zero p h1 h2 h3 h4 h5
  refine ⟨hld, ?_⟩
  intro m v h
  unfold kb at h
  split_ifs at h
  rw [Option.some.injEq, Prod.mk.injEq] at h
  rw [← h.2, hld, Matrix.mulVec_zero, neg_zero]

/-! ### Nonsingularity of the integrated flexibility matrix -/

/-- Entry 0 of a 6-entry vector literal. -/
@[simp] lemma vec6_zero {α : Type*} (a b c d e f : α) : (![a, b, c, d, e, f]) 0 = a := rfl
/-- Entry 1 of a 6-entry vector literal. -/
@[simp] lemma vec6_one {α : Type*} (a b c d e f : α) : (![a, b, c, d, e, f]) 1 = b := rfl
/-- Entry 2 of a 6-entry vector literal. -/
@[simp] lemma vec6_two {α : Type*} (a b c d e f : α) : (![a, b, c, d, e, f]) 2 = c := rfl
/-- Entry 3 of a 6-entry vector literal. -/
@[simp] lemma vec6_three {α : Type*} (a b c d e f : α) : (![a, b, c, d, e, f]) 3 = d := rfl
/-- Entry 4 of a 6-entry vector literal. -/
@[simp] lemma vec6_four {α : Type*} (a b c d e f : α) : (![a, b, c, d, e, f]) 4 = e := rfl
/-- Entry 5 of a 6-entry vector literal. -/
@[simp] lemma vec6_five {α : Type*} (a b c d e f : α) : (![a, b, c, d, e, f]) 5 = f := rfl

set_option maxHeartbeats 1000000 in
/-- The kinematic operator has trivial kernel: for positive length,
radius and `sin theta0`, `bx(θ)·x = 0` forces `x = 0` (block elimination
using `sin² + cos² = 1`). -/
lemma bx_kernel_trivial (p : CPState) (θ : ℝ) (x : Fin 6 → ℝ)
    (hL : 0 < p.L) (hR : 0 < p.radius) (hsin : 0 < Real.sin p.theta0)
    (h : bx p θ *ᵥ x = 0) : x = 0 := by
  have pyth := Real.sin_sq_add_cos_sq θ
  have hca := Real.cos_add θ p.theta0
  have hcs := Real.cos_sub θ p.theta0
  have e0 := congrFun h 0
  have e1 := congrFun h 1
  have e2 := congrFun h 2
  have e3 := congrFun h 3
  have e4 := congrFun h 4
  have e5 := congrFun h 5
  simp only [bx, Matrix.mulVec, Matrix.dotProduct, Fin.sum_univ_six,
    Matrix.of_apply, vec6_zero, vec6_one, vec6_two, vec6_three, vec6_four,
    vec6_five, Pi.zero_apply] at e0 e1 e2 e3 e4 e5
  have hLne : (1.0 : ℝ) / p.L ≠ 0 := div_ne_zero (by norm_num) hL.ne'
  have hx0 : x 0 = 0 := by
    linear_combination (Real.cos θ) * e0 + (Real.sin θ) * e4 - x 0 * pyth
  have hu : (x 1 + x 2) * (1.0 / p.L) = 0 := by
    linear_combination (-(Real.sin θ)) * e0 + (Real.cos θ) * e4 -
      ((x 1 + x 2) * (1.0 / p.L)) * pyth
  have hu2 : x 1 + x 2 = 0 := (mul_eq_zero.1 hu).resolve_right hLne
  have h21 : x 2 = x 1 := by
    linear_combination 2 * e1 - (2 * p.radius * Real.sin θ) * hu +
      (2 * p.radius * (Real.cos θ - Real.cos p.theta0)) * hx0
  have hx1 : x 1 = 0 := by linarith
  have hx2 : x 2 = 0 := by linarith
  have hv : (x 3 + x 4) * (1.0 / p.L) = 0 := by linear_combination e5
  have hv2 : x 3 + x 4 = 0 := (mul_eq_zero.1 hv).resolve_right hLne
  have he2 : Real.cos θ * x 3 + Real.sin θ * x 5 = 0 := by
    linear_combination (-1 : ℝ) * e2 +
      (Real.sin θ * (p.radius * Real.cos p.theta0) * (1.0 / p.L) +
        0.5 * Real.cos θ) * hv2
  have he3 : Real.cos θ * x 5 -
      2 * (p.radius * (1.0 / p.L)) * Real.sin θ * Real.sin p.theta0 * x 3 = 0 := by
    linear_combination e3 -
      (p.radius * (1.0 / p.L) * (1 - Real.cos (θ + p.theta0))) * hv2 -
      (p.radius * (1.0 / p.L) * x 3) * hca + (p.radius * (1.0 / p.L) * x 3) * hcs
  have hKpos : 0 < 2 * (p.radius * (1.0 / p.L)) * Real.sin p.theta0 := by
    have h1 : (0:ℝ) < 1.0 / p.L := by positivity
    have h2 : 0 < p.radius * (1.0 / p.L) := mul_pos hR h1
    have h3 : 0 < 2 * (p.radius * (1.0 / p.L)) := by linarith
    exact mul_pos h3 hsin
  have hc2 : (Real.cos θ ^ 2 +
      2 * (p.radius * (1.0 / p.L)) * Real.sin p.theta0 * Real.sin θ ^ 2) * x 3 = 0 := by
    linear_combination (Real.cos θ) * he2 - (Real.sin θ) * he3
  have hpos : 0 < Real.cos θ ^ 2 +
      2 * (p.radius * (1.0 / p.L)) * Real.sin p.theta0 * Real.sin θ ^ 2 := by
    rcases eq_or_lt_of_le (sq_nonneg (Real.sin θ)) with hs0 | hs0
    · nlinarith [pyth]
    · nlinarith [mul_pos hKpos hs0, sq_nonneg (Real.cos θ)]
  have hx3 : x 3 = 0 := (mul_eq_zero.1 hc2).resolve_left hpos.ne'
  have hx4 : x 4 = 0 := by linarith
  have hx5 : x 5 = 0 := by
    linear_combination (Real.sin θ) * he2 + (Real.cos θ) * he3 +
      (2 * (p.radius * (1.0 / p.L)) * Real.sin p.theta0 * Real.sin θ * Real.cos θ -
        Real.sin θ * Real.cos θ) * hx3 - x 5 * pyth
  funext i
  fin_cases i
  · exact hx0
  · exact hx1
  · exact hx2
  · exact hx3
  · exact hx4
  · exact hx5

/-- Quadratic form of a diagonal matrix as a weighted sum of squares. -/
lemma diag_quad (d y : Fin 6 → ℝ) :
    y ⬝ᵥ (Matrix.diagonal d *ᵥ y) = ∑ j, d j * (y j) ^ 2 := by
  unfold Matrix.dotProduct
  apply Finset.sum_congr rfl
  intro j _
  rw [Matrix.mulVec_diagonal]
  ring

/-- Quadratic form of the flexibility kernel `fb = bxᵀ·fs·bx`. -/
lemma dot_fb (p : CPState) (θ : ℝ) (x : Fin 6 → ℝ) :
    x ⬝ᵥ (fb p θ *ᵥ x) = ∑ j, fsDiag p j * ((bx p θ *ᵥ x) j) ^ 2 := by
  unfold fb fs
  rw [← Matrix.mulVec_mulVec, ← Matrix.mulVec_mulVec, Matrix.dotProduct_mulVec,
    Matrix.vecMul_transpose]
  exact diag_quad _ _

/-- The flexibility kernel is positive semidefinite when the section
flexibilities are nonnegative. -/
lemma dot_fb_nonneg (p : CPState) (θ : ℝ) (x : Fin 6 → ℝ)
    (hd : ∀ j, 0 ≤ fsDiag p j) : 0 ≤ x ⬝ᵥ (fb p θ *ᵥ x) := by
  rw [dot_fb]
  exact Finset.sum_nonneg fun j _ => mul_nonneg (hd j) (sq_nonneg _)

/-- A null vector of the kernel quadratic form lies in the kernel of `bx`
when the section flexibilities are positive. -/
lemma dot_fb_eq_zero (p : CPState) (θ : ℝ) (x : Fin 6 → ℝ)
    (hd : ∀ j, 0 < fsDiag p j) (h : x ⬝ᵥ (fb p θ *ᵥ x) = 0) :
    bx p θ *ᵥ x = 0 := by
  rw [dot_fb] at h
  have hall := (Finset.sum_eq_zero_iff_of_nonneg
    (fun j _ => mul_nonneg (hd j).le (sq_nonneg ((bx p θ *ᵥ x) j)))).1 h
  funext j
  have hj := hall j (Finset.mem_univ j)
  have hsq := (mul_eq_zero.1 hj).resolve_left (hd j).ne'
  rw [Pi.zero_apply]
  exact (pow_eq_zero_iff (by norm_num : (2:ℕ) ≠ 0)).1 hsq

/-- Quadratic form of a list sum of matrices. -/
lemma dot_list_sum (x : Fin 6 → ℝ) :
    ∀ l : List (Matrix (Fin 6) (Fin 6) ℝ),
      x ⬝ᵥ ((l.sum) *ᵥ x) = (l.map fun A => x ⬝ᵥ (A *ᵥ x)).sum := by
  intro l
  induction l with
  | nil => simp
  | cons A l ih => simp [Matrix.add_mulVec, Matrix.dotProduct_add, ih]

set_option maxHeartbeats 1000000 in
/-- The Gauss-integrated flexibility matrix inverted by `kb` is positive
definite, hence nonsingular, whenever length, radius, `theta0`,
`sin theta0` and all section flexibilities are positive. -/
theorem fbIntegrated_det_ne_zero (p : CPState)
    (hL : 0 < p.L) (hR : 0 < p.radius) (hth : 0 < p.theta0)
    (hsin : 0 < Real.sin p.theta0) (hd : ∀ j, 0 < fsDiag p j) :
    (fbIntegrated p).det ≠ 0 := by
  intro hdet
  obtain ⟨v, hv, hMv⟩ := Matrix.exists_mulVec_eq_zero_iff.2 hdet
  have hq : v ⬝ᵥ (fbIntegrated p *ᵥ v) = 0 := by
    rw [hMv, Matrix.dotProduct_zero]
  rw [fbIntegrated, integrateGauss_fst, Matrix.smul_mulVec_assoc,
    Matrix.dotProduct_smul, dot_list_sum, List.map_map] at hq
  have hpp : (0:ℝ) < (p.theta0 - -p.theta0) / 2 := by linarith
  have hterm : ∀ g ∈ gaussPts,
      (0:ℝ) ≤ v ⬝ᵥ (((g.1 * ((p.theta0 - -p.theta0) / 2)) •
        fb p (g.2 * ((p.theta0 - -p.theta0) / 2) +
          (p.theta0 + -p.theta0) / 2)) *ᵥ v) := by
    intro g hg
    rw [Matrix.smul_mulVec_assoc, Matrix.dotProduct_smul, smul_eq_mul]
    have hw : (0:ℝ) < g.1 := by fin_cases hg <;> norm_num
    exact mul_nonneg (mul_nonneg hw.le hpp.le)
      (dot_fb_nonneg p _ v (fun j => (hd j).le))
  have hsum0 : ((gaussPts.map fun g =>
      v ⬝ᵥ (((g.1 * ((p.theta0 - -p.theta0) / 2)) •
        fb p (g.2 * ((p.theta0 - -p.theta0) / 2) +
          (p.theta0 + -p.theta0) / 2)) *ᵥ v))).sum = 0 := by
    have := hq
    rw [smul_eq_mul] at this
    rcases mul_eq_zero.1 this with h | h
    · exact absurd h hR.ne'
    · exact h
  have hg0mem : ((0.1527533871307258 : ℝ), (-0.0765265211334973 : ℝ)) ∈ gaussPts := by
    unfold gaussPts
    exact List.mem_cons_self _ _
  have hmem2 := List.mem_map_of_mem (fun g : ℝ × ℝ =>
      v ⬝ᵥ (((g.1 * ((p.theta0 - -p.theta0) / 2)) •
        fb p (g.2 * ((p.theta0 - -p.theta0) / 2) +
          (p.theta0 + -p.theta0) / 2)) *ᵥ v)) hg0mem
  have hall : ∀ t ∈ (gaussPts.map fun g =>
      v ⬝ᵥ (((g.1 * ((p.theta0 - -p.theta0) / 2)) •
        fb p (g.2 * ((p.theta0 - -p.theta0) / 2) +
          (p.theta0 + -p.theta0) / 2)) *ᵥ v)), (0:ℝ) ≤ t := by
    intro t ht
    obtain ⟨g, hg, rfl⟩ := List.mem_map.1 ht
    exact hterm g hg
  have ht0 := List.all_zero_of_le_zero_le_of_sum_eq_zero hall hsum0 hmem2
  simp only [] at ht0
  rw [Matrix.smul_mulVec_assoc, Matrix.dotProduct_smul, smul_eq_mul] at ht0
  have hwpp : (0:ℝ) < (0.1527533871307258 : ℝ) * ((p.theta0 - -p.theta0) / 2) :=
    mul_pos (by norm_num) hpp
  have hQ0 := (mul_eq_zero.1 ht0).resolve_left hwpp.ne'
  have hker := dot_fb_eq_zero p _ v hd hQ0
  exact hv (bx_kernel_trivial p _ v hL hR hsin hker)

/-! ### Successful assembly -/

/-- When both property refreshes succeed and the integrated flexibility
matrix is nonsingular, `kb` returns its inverse and `-inverse * lockedDef`. -/
lemma kb_eq_some (p : CPState) (hsec : p.sectionOK = true)
    (hmat : p.materialOK = true) (hdet : (fbIntegrated p).det ≠ 0) :
    kb p = some ((fbIntegrated p)⁻¹, -((fbIntegrated p)⁻¹ *ᵥ lockedDef p)) := by
  unfold kb
  rw [hsec, hmat]
  simp [hdet]

/-- The witness state satisfies the nonsingularity hypotheses. -/
lemma sW_det_ne : (fbIntegrated sW).det ≠ 0 := by
  apply fbIntegrated_det_ne_zero
  · norm_num [sW]
  · norm_num [sW]
  · norm_num [sW]
  · show (0:ℝ) < Real.sin sW.theta0
    have h1 : sW.theta0 = 1 := rfl
    rw [h1]
    apply Real.sin_pos_of_pos_of_lt_pi
    · norm_num
    · linarith [Real.pi_gt_three]
  · intro j
    fin_cases j <;> norm_num [fsDiag, sW]

/-- `kb` succeeds on the witness state. -/
lemma kb_sW :
    kb sW = some ((fbIntegrated sW)⁻¹, -((fbIntegrated sW)⁻¹ *ᵥ lockedDef sW)) :=
  kb_eq_some sW rfl rfl sW_det_ne

/-- The thermal augmentation affects only component 0. -/
lemma thermalCorr_apply (p : CPState) (i : Fin 6) :
    thermalCorr p i =
      if i = 0 then 2 * p.radius * p.alp * p.dT * Real.sin p.theta0 else 0 := by
  fin_cases i <;> simp [thermalCorr]

/-- Componentwise form of the augmented locked deformation vector. -/
lemma lockedDef_apply (p : CPState) (i : Fin 6) :
    lockedDef p i = ubnoIntegrated p i +
      (if p.dT > 0 ∧ i = 0 then 2 * p.radius * p.alp * p.dT * Real.sin p.theta0
       else 0) +
      (if p.pressure ≠ 0 then pressureCorr p i else 0) := by
  unfold lockedDef
  rw [Pi.add_apply, Pi.add_apply]
  congr 1
  · congr 1
    by_cases hdT : p.dT > 0
    · rw [if_pos hdT, thermalCorr_apply]
      by_cases hi : i = 0
      · simp [hi, hdT]
      · simp [hi, hdT]
    · rw [if_neg hdT]
      simp [hdT]
  · rw [apply_ite (fun f : Fin 6 → ℝ => f i)]
    by_cases hp : p.pressure ≠ 0
    · rw [if_pos hp, if_pos hp]
    · rw [if_neg hp, if_neg hp, Pi.zero_apply]

/-- C1: on every successful `kb` call the integrated flexibility matrix is
nonsingular and is inverted to give the basic stiffness; the basic
equivalent load is minus that stiffness times the locked deformation
vector; the locked deformation is the Gauss-integrated `ubno` augmented by
the thermal term (component 0 only, added exactly when `dT > 0`) and by
the closed-form pressure corrections (components 0, 1 and 2 only, added
exactly when `pressure ≠ 0`); and a singular integrated flexibility matrix
makes `kb` fail. -/
theorem C1_kb_assembler (p : CPState) :
    (∀ m v, kb p = some (m, v) →
      (fbIntegrated p).det ≠ 0 ∧
      m * fbIntegrated p = 1 ∧
      fbIntegrated p * m = 1 ∧
      v = -(m *ᵥ lockedDef p) ∧
      (∀ i, lockedDef p i = ubnoIntegrated p i +
        (if p.dT > 0 ∧ i = 0 then
          2 * p.radius * p.alp * p.dT * Real.sin p.theta0 else 0) +
        (if p.pressure ≠ 0 then pressureCorr p i else 0)) ∧
      pressureCorr p 3 = 0 ∧ pressureCorr p 4 = 0 ∧ pressureCorr p 5 = 0) ∧
    ((fbIntegrated p).det = 0 → kb p = none) := by
  constructor
  · intro m v h
    unfold kb at h
    by_cases hsm : (p.sectionOK && p.materialOK) = true
    · rw [if_pos hsm] at h
      by_cases hdet : (fbIntegrated p).det = 0
      · rw [if_pos hdet] at h
        exact absurd h (by simp)
      · rw [if_neg hdet] at h
        have hpair := Option.some.inj h
        have hm : (fbIntegrated p)⁻¹ = m := congrArg Prod.fst hpair
        have hv : -((fbIntegrated p)⁻¹ *ᵥ lockedDef p) = v :=
          congrArg Prod.snd hpair
        have hunit : IsUnit (fbIntegrated p).det := isUnit_iff_ne_zero.2 hdet
        refine ⟨hdet, ?_, ?_, ?_, lockedDef_apply p, rfl, rfl, rfl⟩
        · rw [← hm]
          exact Matrix.nonsing_inv_mul _ hunit
        · rw [← hm]
          exact Matrix.mul_nonsing_inv _ hunit
        · rw [← hv, ← hm]
    · rw [if_neg hsm] at h
      exact absurd h (by simp)
  · intro hdet
    unfold kb
    by_cases hsm : (p.sectionOK && p.materialOK) = true
    · rw [if_pos hsm, if_pos hdet]
    · rw [if_neg hsm]

/-- Witness for C1: a successful concrete `kb` call. -/
theorem C1_kb_assembler_witness :
    kb sW = some ((fbIntegrated sW)⁻¹, -((fbIntegrated sW)⁻¹ *ᵥ lockedDef sW)) ∧
    (fbIntegrated sW)⁻¹ * fbIntegrated sW = 1 ∧
    fbIntegrated sW * (fbIntegrated sW)⁻¹ = 1 := by
  refine ⟨kb_sW, ?_, ?_⟩
  · exact ((C1_kb_assembler sW).1 _ _ kb_sW).2.1
  · exact ((C1_kb_assembler sW).1 _ _ kb_sW).2.2.1

/-- Witness for C7: the zero-load witness state with a successful `kb`. -/
theorem C7_zero_load_witness :
    sW.wx = 0 ∧ sW.wy = 0 ∧ sW.wz = 0 ∧ sW.pressure = 0 ∧ sW.dT = 0 ∧
    lockedDef sW = 0 ∧
    kb sW = some ((fbIntegrated sW)⁻¹, -((fbIntegrated sW)⁻¹ *ᵥ lockedDef sW)) ∧
    -((fbIntegrated sW)⁻¹ *ᵥ lockedDef sW) = 0 := by
  have h := C7_zero_load_idempotence sW rfl rfl rfl rfl rfl
  exact ⟨rfl, rfl, rfl, rfl, rfl, h.1, kb_sW, h.2 _ _ kb_sW⟩

/-! ### Facade behaviour on failure and the resisting-force assembly -/

/-- A state whose section property refresh fails. -/
def sFail : CPState := { sW with sectionOK := false }

/-- `kb` fails on `sFail`. -/
lemma kb_sFail : kb sFail = none := by
  unfold kb
  simp [sFail, sW]

/-- C4: whenever `kb` fails, `getTangentStiff` and `getInitialStiff`
return the zero stiffness matrix and `getResistingForce` returns the zero
force vector; the accessors return normally (the embedding is a total
function), matching the source, which reports the failure and returns the
zeroed class member instead of terminating. -/
theorem C4_zero_on_kb_failure (p : CPState) (v : Fin 6 → ℝ)
    (gT : Matrix (Fin 6) (Fin 6) ℝ → (Fin 6 → ℝ) → Matrix (Fin 12) (Fin 12) ℝ)
    (gI : Matrix (Fin 6) (Fin 6) ℝ → Matrix (Fin 12) (Fin 12) ℝ)
    (gR : (Fin 6 → ℝ) → (Fin 6 → ℝ) → (Fin 12 → ℝ))
    (Q : Fin 12 → ℝ) (rho : ℝ) (h : kb p = none) :
    getTangentStiff p v gT = 0 ∧ getInitialStiff p gI = 0 ∧
    getResistingForce p v gR Q rho = 0 := by
  refine ⟨?_, ?_, ?_⟩ <;>
    simp [getTangentStiff, getInitialStiff, getResistingForce, h]

/-- Witness for C4 at the concrete failing state. -/
theorem C4_zero_on_kb_failure_witness :
    kb sFail = none ∧
    getTangentStiff sFail 0 (fun _m _q => 1) = 0 ∧
    getInitialStiff sFail (fun _m => 1) = 0 ∧
    getResistingForce sFail 0 (fun _q _w => 1) 0 1 = 0 := by
  have h := C4_zero_on_kb_failure sFail 0 (fun _m _q => 1) (fun _m => 1)
    (fun _q _w => 1) 0 1 kb_sFail
  exact ⟨kb_sFail, h.1, h.2.1, h.2.2⟩

/-- C9 (amended): on every `getResistingForce` call in which `kb`
succeeds, the global force is assembled from the basic force
`q = kb·ub + pb0` and the self-weight end actions `plw`; the external
load vector `Q` is subtracted exactly when `rho ≠ 0` (source lines
329-332) and is not subtracted when `rho = 0`. -/
theorem C9_resisting_force_amended (p : CPState) (v : Fin 6 → ℝ)
    (gR : (Fin 6 → ℝ) → (Fin 6 → ℝ) → (Fin 12 → ℝ))
    (Q : Fin 12 → ℝ) (rho : ℝ) :
    ∀ m pb0, kb p = some (m, pb0) →
      getResistingForce p v gR Q rho =
        (if rho ≠ 0 then gR (m *ᵥ v + pb0) (plw p) - Q
         else gR (m *ᵥ v + pb0) (plw p)) := by
  intro m pb0 h
  unfold getResistingForce
  rw [h]

/-- Witness for the amended C9 at the concrete witness state. -/
theorem C9_resisting_force_amended_witness :
    kb sW = some ((fbIntegrated sW)⁻¹, -((fbIntegrated sW)⁻¹ *ᵥ lockedDef sW)) ∧
    getResistingForce sW 0 (fun _q _w => (0 : Fin 12 → ℝ)) (fun _i => 1) 1 =
      (if (1:ℝ) ≠ 0 then
        (fun _q _w => (0 : Fin 12 → ℝ))
          ((fbIntegrated sW)⁻¹ *ᵥ 0 + -((fbIntegrated sW)⁻¹ *ᵥ lockedDef sW))
          (plw sW) - (fun _i => 1)
       else (fun _q _w => (0 : Fin 12 → ℝ))
          ((fbIntegrated sW)⁻¹ *ᵥ 0 + -((fbIntegrated sW)⁻¹ *ᵥ lockedDef sW))
          (plw sW)) :=
  ⟨kb_sW,
    C9_resisting_force_amended sW 0 (fun _q _w => (0 : Fin 12 → ℝ))
      (fun _i => 1) 1 _ _ kb_sW⟩

/-- Counterexample to C9 as stated: with `rho = 0` the code does not
subtract the external load vector `Q`.  At the witness state (where `kb`
succeeds), a zero global-force transform and `Q = 1` give a zero result,
while the unconditional-subtraction claim demands `-Q`. -/
theorem C9_counterexample :
    kb sW = some ((fbIntegrated sW)⁻¹, -((fbIntegrated sW)⁻¹ *ᵥ lockedDef sW)) ∧
    getResistingForce sW 0 (fun _q _w => (0 : Fin 12 → ℝ)) (fun _i => 1) 0 ≠
      (fun _q _w => (0 : Fin 12 → ℝ))
        ((fbIntegrated sW)⁻¹ *ᵥ 0 + -((fbIntegrated sW)⁻¹ *ᵥ lockedDef sW))
        (plw sW) - (fun _i => 1) := by
  refine ⟨kb_sW, ?_⟩
  have hval : getResistingForce sW 0 (fun _q _w => (0 : Fin 12 → ℝ))
      (fun _i => 1) 0 = 0 := by
    unfold getResistingForce
    rw [kb_sW]
    norm_num
  rw [hval]
  intro heq
  have h0 := congrFun heq 0
  simp at h0

/-! ### Pressure correction: nonlinearity in the pressure -/

/-- A concrete pressurized state: mean radius 1, arc radius 2, right-angle
arc (`theta0 = pi/4`), unit modulus and wall, zero Poisson ratio, zero
distributed load and temperature. -/
def s8 (P : ℝ) : CPState :=
  { sW with pressure := P, radius := 2, theta0 := Real.pi / 4 }

/-- At `s8` the axial locked deformation is exactly the axial pressure
correction. -/
lemma lockedDef_s8 (P : ℝ) (hP : P ≠ 0) :
    lockedDef (s8 P) 0 = pressureCorr (s8 P) 0 := by
  rw [lockedDef_apply]
  have hz := ubnoIntegrated_zero (s8 P) rfl rfl rfl
  rw [hz]
  have hdT : ¬ ((s8 P).dT > 0 ∧ (0 : Fin 6) = 0) := by
    intro hcon
    have h0 : (s8 P).dT = 0 := rfl
    rw [h0] at hcon
    exact lt_irrefl 0 hcon.1
  rw [if_neg hdT, if_pos (show (s8 P).pressure ≠ 0 from hP)]
  simp

/-- The `BTA` factor of `s8` at unit pressure. -/
lemma pressureBTA_s8_one : pressureBTA (s8 1) = -(1/8) := by
  unfold pressureBTA
  norm_num [s8, sW]

/-- The `BTA` factor of `s8` at pressure 2. -/
lemma pressureBTA_s8_two : pressureBTA (s8 2) = -(1/6) := by
  unfold pressureBTA
  norm_num [s8, sW]

/-- Counterexample to C8 as stated: at the concrete pressurized state
`s8`, doubling the pressure from 1 to 2 does not exactly double the
pressure-induced axial locked deformation, because the `BTA` factor is a
rational function of the pressure (`-1/8` at `P = 1` but `-1/6` at
`P = 2`); exact doubling would force `pi = 4`. -/
theorem C8_counterexample :
    ¬ (lockedDef (s8 2) 0 = 2 * lockedDef (s8 1) 0) := by
  intro heq
  rw [lockedDef_s8 2 (by norm_num), lockedDef_s8 1 (by norm_num)] at heq
  unfold pressureCorr at heq
  rw [vec6_zero, vec6_zero, pressureBTA_s8_one, pressureBTA_s8_two] at heq
  norm_num [s8, sW, Real.sin_pi_div_four, Real.cos_pi_div_four] at heq
  have hs2 : (0:ℝ) < Real.sqrt 2 := Real.sqrt_pos.2 (by norm_num)
  nlinarith [hs2, Real.pi_lt_four, mul_pos (sub_pos.2 Real.pi_lt_four) hs2]

/-- The explicit thin-wall term of the axial pressure correction in
`CurvedPipe::kb` (source lines 517-518). -/
def pressThinTerm (p : CPState) : ℝ :=
  0.5 * p.pressure * p.radius * (p.dout - p.thk) * (1 - 2 * p.nu) *
    Real.sin p.theta0 / (p.E * p.thk)

/-- The element state with the internal pressure replaced and everything
else held fixed. -/
def setPressure (p : CPState) (P : ℝ) : CPState := { p with pressure := P }

/-- C8 (amended): holding everything else fixed, the explicit thin-wall
term of kb's axial pressure correction scales exactly linearly with the
pressure (at `2P` it is twice its value at `P`), and the axial pressure
correction is that term plus the `BTA`-dependent terms; the full
correction is not exactly linear in `P` because `BTA` itself depends on
`P` (see the counterexample). -/
theorem C8_pressure_linearity_amended (p : CPState) (P : ℝ) :
    pressThinTerm (setPressure p (2 * P)) = 2 * pressThinTerm (setPressure p P) ∧
    pressureCorr p 0 = pressThinTerm p +
      2 * p.radius * p.radius * pressureBTA p *
        (p.theta0 * Real.cos p.theta0 - Real.sin p.theta0) := by
  constructor
  · show 0.5 * (2 * P) * p.radius * (p.dout - p.thk) * (1 - 2 * p.nu) *
        Real.sin p.theta0 / (p.E * p.thk) =
      2 * (0.5 * P * p.radius * (p.dout - p.thk) * (1 - 2 * p.nu) *
        Real.sin p.theta0 / (p.E * p.thk))
    ring
  · rfl

/-! ### Geometry solver -/

/-- Entry 0 of a 3-entry vector literal. -/
@[simp] lemma vec3_zero {α : Type*} (a b c : α) : (![a, b, c]) 0 = a := rfl
/-- Entry 1 of a 3-entry vector literal. -/
@[simp] lemma vec3_one {α : Type*} (a b c : α) : (![a, b, c]) 1 = b := rfl
/-- Entry 2 of a 3-entry vector literal. -/
@[simp] lemma vec3_two {α : Type*} (a b c : α) : (![a, b, c]) 2 = c := rfl

/-- C3: the geometry solver computes the two center-to-node distances,
averages them into the radius, and fails exactly when the radius is
non-positive, the distances differ by more than `tolWall` times the wall
thickness, or the half chord length exceeds `0.99985` times the radius;
on success it returns the radius and `theta0 = asin(halfChord/radius)`
(no `theta0` is produced on failure). -/
theorem C3_getTheta0_validation (crdsI crdsJ center : Fin 3 → ℝ)
    (thk tolWall L : ℝ) :
    (getTheta0 crdsI crdsJ center thk tolWall L = none ↔
      (norm3 (center - crdsI) + norm3 (center - crdsJ)) / 2 ≤ 0 ∨
      |norm3 (center - crdsI) - norm3 (center - crdsJ)| > tolWall * thk ∨
      L / 2 > 0.99985 * ((norm3 (center - crdsI) + norm3 (center - crdsJ)) / 2)) ∧
    (∀ r t, getTheta0 crdsI crdsJ center thk tolWall L = some (r, t) →
      r = (norm3 (center - crdsI) + norm3 (center - crdsJ)) / 2 ∧
      t = Real.arcsin (L / 2 / r)) := by
  simp only [getTheta0, show (2.0:ℝ) = 2 from by norm_num]
  constructor
  · split_ifs with h1 h2 h3
    · exact iff_of_true rfl (Or.inl h1)
    · exact iff_of_true rfl (Or.inr (Or.inl h2))
    · exact iff_of_true rfl (Or.inr (Or.inr h3))
    · exact iff_of_false (by simp) (by simp [h1, h2, h3])
  · intro r t h
    split_ifs at h with h1 h2 h3
    have hp := Option.some.inj h
    have hr : (norm3 (center - crdsI) + norm3 (center - crdsJ)) / 2 = r :=
      congrArg Prod.fst hp
    have ht : Real.arcsin (L / 2 /
        ((norm3 (center - crdsI) + norm3 (center - crdsJ)) / 2)) = t :=
      congrArg Prod.snd hp
    rw [← hr, ← ht]
    exact ⟨rfl, rfl⟩

/-- C10: on every successful path of `getTheta0` (given the collaborator
guarantee that the initial length is nonnegative), the argument passed to
`asin` lies in `[0, 0.99985]` -- strictly inside the domain of `asin` --
because the radius is positive by the first guard and the third guard
bounds the half chord; hence `theta0` is a well-defined real number in
`[0, pi/2)`. -/
theorem C10_arcsin_domain (crdsI crdsJ center : Fin 3 → ℝ)
    (thk tolWall L : ℝ) (hL : 0 ≤ L) :
    ∀ r t, getTheta0 crdsI crdsJ center thk tolWall L = some (r, t) →
      0 < r ∧ 0 ≤ L / 2 / r ∧ L / 2 / r ≤ 0.99985 ∧
      t = Real.arcsin (L / 2 / r) ∧ 0 ≤ t ∧ t < Real.pi / 2 := by
  intro r t h
  simp only [getTheta0, show (2.0:ℝ) = 2 from by norm_num] at h
  split_ifs at h with h1 h2 h3
  have hp := Option.some.inj h
  have hr : (norm3 (center - crdsI) + norm3 (center - crdsJ)) / 2 = r :=
    congrArg Prod.fst hp
  have ht : Real.arcsin (L / 2 /
      ((norm3 (center - crdsI) + norm3 (center - crdsJ)) / 2)) = t :=
    congrArg Prod.snd hp
  have hrpos : 0 < r := by
    rw [← hr]
    exact lt_of_not_le h1
  have harg0 : 0 ≤ L / 2 / r := div_nonneg (by linarith) hrpos.le
  have harg1 : L / 2 / r ≤ 0.99985 := by
    rw [div_le_iff₀ hrpos, ← hr]
    exact not_lt.1 h3
  refine ⟨hrpos, harg0, harg1, ?_, ?_, ?_⟩
  · rw [← ht, ← hr]
  · rw [← ht]
    exact Real.arcsin_nonneg.2 (by rw [hr]; exact harg0)
  · rw [← ht]
    apply Real.arcsin_lt_pi_div_two.2
    rw [hr]
    linarith [harg1]

/-- Distance from the origin center to the concrete node I. -/
lemma normI : norm3 ((![0, 0, 0] : Fin 3 → ℝ) - ![1, 0, 0]) = 1 := by
  unfold norm3
  norm_num [Pi.sub_apply]

/-- Distance from the origin center to the concrete node J. -/
lemma normJ : norm3 ((![0, 0, 0] : Fin 3 → ℝ) - ![0, 1, 0]) = 1 := by
  unfold norm3
  norm_num [Pi.sub_apply]

/-- The geometry solver succeeds on a concrete unit-radius quarter arc. -/
lemma getTheta0_concrete :
    getTheta0 (![1, 0, 0]) (![0, 1, 0]) (![0, 0, 0]) 1 0.1 1 =
      some ((1 + 1) / 2, Real.arcsin (1 / 2 / ((1 + 1) / 2))) := by
  simp only [getTheta0, show (2.0:ℝ) = 2 from by norm_num, normI, normJ]
  norm_num

/-- Witness for C3 at a concrete successful geometry. -/
theorem C3_witness :
    getTheta0 (![1, 0, 0]) (![0, 1, 0]) (![0, 0, 0]) 1 0.1 1 =
      some ((1 + 1) / 2, Real.arcsin (1 / 2 / ((1 + 1) / 2))) ∧
    (1 + 1) / 2 = (norm3 ((![0, 0, 0] : Fin 3 → ℝ) - ![1, 0, 0]) +
      norm3 ((![0, 0, 0] : Fin 3 → ℝ) - ![0, 1, 0])) / 2 ∧
    Real.arcsin (1 / 2 / ((1 + 1) / 2)) =
      Real.arcsin (1 / 2 / ((1 + 1) / 2)) := by
  obtain ⟨hr, ht⟩ := (C3_getTheta0_validation (![1, 0, 0]) (![0, 1, 0])
    (![0, 0, 0]) 1 0.1 1).2 _ _ getTheta0_concrete
  exact ⟨getTheta0_concrete, hr, ht⟩

/-- Witness for C10 at a concrete successful geometry. -/
theorem C10_witness :
    (0:ℝ) ≤ 1 ∧
    getTheta0 (![1, 0, 0]) (![0, 1, 0]) (![0, 0, 0]) 1 0.1 1 =
      some ((1 + 1) / 2, Real.arcsin (1 / 2 / ((1 + 1) / 2))) ∧
    ((0:ℝ) < (1 + 1) / 2 ∧ (0:ℝ) ≤ 1 / 2 / ((1 + 1) / 2) ∧
      (1:ℝ) / 2 / ((1 + 1) / 2) ≤ 0.99985 ∧
      Real.arcsin (1 / 2 / ((1 + 1) / 2)) =
        Real.arcsin (1 / 2 / ((1 + 1) / 2)) ∧
      0 ≤ Real.arcsin (1 / 2 / ((1 + 1) / 2)) ∧
      Real.arcsin (1 / 2 / ((1 + 1) / 2)) < Real.pi / 2) := by
  refine ⟨by norm_num, getTheta0_concrete, ?_⟩
  exact C10_arcsin_domain (![1, 0, 0]) (![0, 1, 0]) (![0, 0, 0]) 1 0.1 1
    (by norm_num) _ _ getTheta0_concrete

end
